import Mathlib

/-!
Verification development for the `json-pretty-compact` formatter.

The repository contains two revisions of the same core:

* `src/token.rs` — the token tree model: `Token` (markers, `Data` leaves and
  reduced `Array`/`Object` compounds), the compact-width computation
  `Token::length`, the compaction test `Token::can_compact` and the recursive
  renderer `Token::format` with its key-fit heuristic for object values.
* `src/fmt.rs` — the `PrettyCompactFormatter` event receiver: a working stack
  of tokens plus a `u32` level counter, eager span reduction on every end
  event (`format_array` / `format_object`), the budget tests
  `can_compact_array` / `can_compact_object`, and `format_json`, which is the
  only place the external writer is touched.

Bytes are modelled as `List Nat` (one entry per byte), `u32` arithmetic as
`Nat` arithmetic modulo `2^32`, and fallible code as `Except Error`.
-/

/-- Byte strings: one natural number per byte. -/
abbrev Bytes := List Nat

/-- Bytes of an ASCII string literal. -/
def strB (s : String) : Bytes := s.toList.map Char.toNat

/-- The `write_indent!` macro: `len` space characters, nothing when `len = 0`
(padding a single space to width `len` writes exactly `len` spaces). -/
def indB (len : Nat) : Bytes := List.replicate len 32

/-- `Options` from `src/options.rs`: indentation width per level and the
optional maximum line length. -/
structure Options where
  indent : Nat
  max_len : Option Nat
deriving DecidableEq, Repr

/-- The default options: `indent = 2`, `max_len = Some(120)`. -/
def defaultOptions : Options := ⟨2, some 120⟩

/-- `Options::no_rules()`: the budget is disabled. -/
def noRulesOptions : Options := ⟨2, none⟩

/-- The error type of the library, from `src/error.rs`. -/
inductive Error where
  | unexpectedEvent (expected found : String)
  | emptyTokenQueue
  | noArrayStart
  | noObjectStart
deriving DecidableEq, Repr

/-- The token type from `src/token.rs`: begin/end markers carrying the nesting
level, pre-rendered `Data` leaves, and reduced `Array`/`Object` compounds. -/
inductive Token where
  | beginObject (level : Nat)
  | endObject
  | beginArray (level : Nat)
  | endArray
  | data (bytes : Bytes)
  | array (level : Nat) (children : List Token)
  | object (level : Nat) (children : List Token)
deriving Repr

/-- `Token::as_begin_object`. -/
def Token.as_begin_object : Token → Option Nat
  | .beginObject level => some level
  | _ => none

/-- `Token::is_end_object`. -/
def Token.is_end_object : Token → Bool
  | .endObject => true
  | _ => false

/-- `Token::as_begin_array`. -/
def Token.as_begin_array : Token → Option Nat
  | .beginArray level => some level
  | _ => none

/-- `Token::is_end_array`. -/
def Token.is_end_array : Token → Bool
  | .endArray => true
  | _ => false

/-- `Token::as_data`. -/
def Token.as_data : Token → Option Bytes
  | .data d => some d
  | _ => none

/-- `Token::debug_info`. -/
def Token.debug_info : Token → String
  | .beginObject _ => "BeginObject"
  | .endObject => "EndObject"
  | .beginArray _ => "BeginArray"
  | .endArray => "EndArray"
  | .data _ => "Data"
  | .array _ _ => "Array"
  | .object _ _ => "Object"

/-- `Token::as_data_err`. -/
def Token.as_data_err (t : Token) : Except Error Bytes :=
  match t.as_data with
  | some d => .ok d
  | none => .error (.unexpectedEvent "Data" t.debug_info)

/-- `Token::as_begin_array_err` (exercised by `src/token/tests.rs`, called by
`PrettyCompactFormatter::can_compact_array`). -/
def Token.as_begin_array_err (t : Token) : Except Error Nat :=
  match t.as_begin_array with
  | some l => .ok l
  | none => .error (.unexpectedEvent "BeginArray" t.debug_info)

/-- `Token::as_begin_object_err` (exercised by `src/token/tests.rs`, called by
`PrettyCompactFormatter::can_compact_object`). -/
def Token.as_begin_object_err (t : Token) : Except Error Nat :=
  match t.as_begin_object with
  | some l => .ok l
  | none => .error (.unexpectedEvent "BeginObject" t.debug_info)

/-- `u32` modulus: levels and indents are 32-bit unsigned integers in the
source (`level: u32` in `PrettyCompactFormatter` and in the `Begin*` /
`Array` / `Object` tokens, `indent: u32` in `Options`). -/
def U32MOD : Nat := 4294967296

/-- Wrapping `u32` increment (`self.level += 1`, and the `level + 1` in the
`spaces_next` computations). -/
def u32inc (n : Nat) : Nat := (n + 1) % U32MOD

/-- Wrapping `u32` decrement (`self.level -= 1`; release-mode two's-complement
wrap-around: decrementing 0 yields `2^32 - 1`). -/
def u32dec (n : Nat) : Nat := (n + (U32MOD - 1)) % U32MOD

/-- Wrapping `u32` multiplication: the products `level * indent` and
`(level + 1) * indent` are computed on `u32` before the `as usize` cast, so
in release mode they wrap modulo `2^32` (e.g. `2 * 2^31` wraps to 0). -/
def u32mul (a b : Nat) : Nat := (a * b) % U32MOD

mutual

/-- `Token::length` from `src/token.rs`: the width of the fully compact
rendering.  Markers weigh 0, `Data` weighs its byte count; a compound sums the
child widths, adds separator widths (`", "` between siblings, `": "` after
each key), and yields `4 + inner` for the surrounding brackets and spaces
when `inner > 0`, else `3`.  All subtractions saturate at 0, mirroring
`checked_sub(1).unwrap_or(0)`. -/
def Token.length : Token → Nat
  | .beginObject _ => 0
  | .endObject => 0
  | .beginArray _ => 0
  | .endArray => 0
  | .data v => v.length
  | .array _ ts =>
      let n := Token.lengthList ts
      let inner := n + (ts.length - 1) * 2
      if inner > 0 then 4 + inner else 3
  | .object _ ts =>
      let n := Token.lengthList ts
      let num_keys := ts.length / 2
      let inner := n + 2 * num_keys + (num_keys - 1) * 2
      if inner > 0 then 4 + inner else 3

/-- Sum of `Token::length` over a child list (the `iter().fold` in
`Token::length`). -/
def Token.lengthList : List Token → Nat
  | [] => 0
  | t :: ts => t.length + Token.lengthList ts

end

/-- `Token::can_compact` from `src/token.rs`: markers and `Data` are always
compactable; an `Array`/`Object` is compactable iff `max_len` is set and
`prefix + length < max_len`, where `prefix` is the forced indent when given,
else the wrapping `u32` product `level * indent`. -/
def Token.can_compact (t : Token) (options : Options) (forced_indent : Option Nat) : Bool :=
  match t with
  | .array level _ =>
      match options.max_len with
      | some max => decide (forced_indent.getD (u32mul level options.indent) + t.length < max)
      | none => false
  | .object level _ =>
      match options.max_len with
      | some max => decide (forced_indent.getD (u32mul level options.indent) + t.length < max)
      | none => false
  | _ => true

mutual

/-- `Token::format` from `src/token.rs`.  The writer is modelled by returning
the written bytes; `io::Result` by `Except Error`.  Markers write nothing,
`Data` writes its bytes verbatim.  A compound first fixes
`compact = forced_compact.unwrap_or(can_compact(options, None))`, then writes
the opening bracket, the children (via `formatArrayItems` /
`formatObjectPairs`) and the closing bracket, expanded children being placed
on their own lines indented by `(level+1) * indent`. -/
def Token.format (t : Token) (options : Options) (forced_compact : Option Bool) :
    Except Error Bytes :=
  match t with
  | .beginObject _ => .ok []
  | .endObject => .ok []
  | .beginArray _ => .ok []
  | .endArray => .ok []
  | .data v => .ok v
  | .array level ts =>
      let compact := forced_compact.getD (Token.can_compact (.array level ts) options none)
      let spaces := u32mul level options.indent
      let spaces_next := u32mul (u32inc level) options.indent
      do
        let body ← Token.formatArrayItems ts options compact spaces_next true
        let tail :=
          if compact && ts.isEmpty then strB "]"
          else if compact then strB " ]"
          else strB "\n" ++ indB spaces ++ strB "]"
        .ok ((if compact then strB "[ " else strB "[\n") ++ body ++ tail)
  | .object level ts =>
      let compact := forced_compact.getD (Token.can_compact (.object level ts) options none)
      let spaces := u32mul level options.indent
      let spaces_next := u32mul (u32inc level) options.indent
      let cur_indent := if compact then 2 else spaces
      do
        let body ← Token.formatObjectPairs ts options compact spaces_next cur_indent true
        let tail :=
          if compact && decide (ts.length < 2) then strB "\x7d"
          else if compact then strB " \x7d"
          else strB "\n" ++ indB spaces ++ strB "\x7d"
        .ok ((if compact then strB "\x7b " else strB "\x7b\n") ++ body ++ tail)

/-- The child loop of `Token::format` for arrays: a `", "` (compact) or
`",\n"` (expanded) separator before every child but the first, indentation
before every child when expanded, then the child rendered with
`forced_compact = None`. -/
def Token.formatArrayItems (ts : List Token) (options : Options) (compact : Bool)
    (spaces_next : Nat) (first : Bool) : Except Error Bytes :=
  match ts with
  | [] => .ok []
  | t :: rest => do
      let sep := if first then ([] : Bytes) else if compact then strB ", " else strB ",\n"
      let ind := if compact then ([] : Bytes) else indB spaces_next
      let v ← t.format options none
      let restB ← Token.formatArrayItems rest options compact spaces_next false
      .ok (sep ++ ind ++ v ++ restB)

/-- The pair loop of `Token::format` for objects (`chunks_exact(2)`: a
trailing odd child is dropped).  `cur_indent` is threaded exactly as the code
mutates it: `+2` per compact separator, reset to 0 then `+spaces_next` per
expanded line, `+ key len + 2` per key; the value is then rendered with
`forced_compact = None` when `can_compact(value, Some(cur_indent))` holds and
with `forced_compact = Some(false)` otherwise. -/
def Token.formatObjectPairs (ts : List Token) (options : Options) (compact : Bool)
    (spaces_next : Nat) (cur_indent : Nat) (first : Bool) : Except Error Bytes :=
  match ts with
  | t1 :: t2 :: rest => do
      let key ← t1.as_data_err
      let ci1 := if first then cur_indent else if compact then cur_indent + 2 else 0
      let ci2 := if compact then ci1 else ci1 + spaces_next
      let ci3 := ci2 + key.length + 2
      let sep := if first then ([] : Bytes) else if compact then strB ", " else strB ",\n"
      let ind := if compact then ([] : Bytes) else indB spaces_next
      let v ←
        if t2.can_compact options (some ci3) then t2.format options none
        else t2.format options (some false)
      let restB ← Token.formatObjectPairs rest options compact spaces_next ci3 false
      .ok (sep ++ ind ++ key ++ strB ": " ++ v ++ restB)
  | _ => .ok []

end

/-- The value placement rule of `Token::format`'s object loop (lines 223-230
of `src/token.rs`), stated as a function: probe
`can_compact(value, Some(cur_indent))`; on success render the value with
`forced_compact = None` (its own default decision), on failure with
`forced_compact = Some(false)` (forced full expansion). -/
def keyFitValueRender (t2 : Token) (options : Options) (cur_indent : Nat) :
    Except Error Bytes :=
  if t2.can_compact options (some cur_indent) then t2.format options none
  else t2.format options (some false)


/-- `PrettyCompactFormatter` from `src/fmt.rs`: configuration, the working
token stack and the current `u32` nesting level. -/
structure PrettyCompactFormatter where
  indent : Nat
  max_len : Option Nat
  token : List Token
  level : Nat
deriving Repr

/-- `PrettyCompactFormatter::new()`: default rules (`indent 2`, budget 120). -/
def PrettyCompactFormatter.new : PrettyCompactFormatter := ⟨2, some 120, [], 0⟩

/-- `PrettyCompactFormatter::no_rules()`: no budget. -/
def PrettyCompactFormatter.no_rules : PrettyCompactFormatter := ⟨2, none, [], 0⟩

/-- `PrettyCompactFormatter::find_last_token`: the `enumerate().rev().find_map`
scan — index and payload of the last (topmost) token matched by `predicate`. -/
def find_last_token (predicate : Token → Option Nat) : List Token → Option (Nat × Nat)
  | [] => none
  | t :: ts =>
      match find_last_token predicate ts with
      | some (idx, n) => some (idx + 1, n)
      | none => (predicate t).map (fun n => (0, n))

/-- `PrettyCompactFormatter::can_compact_array`: the span is
`token[idx+1 .. len-1]`; its width is `3` when empty, else
`4 + (sum of Data byte lengths) + (span len - 1) * 2`; the begin marker's
level contributes the wrapping `u32` product `level * indent`; the
comparison is `<=` against the budget
and the result is `false` when the budget is unset.  (Indexing `token[idx]`
is modelled totally; every call site passes an index found by
`find_last_token`.) -/
def PrettyCompactFormatter.can_compact_array (st : PrettyCompactFormatter) (idx : Nat) :
    Except Error Bool := do
  let level ← ((st.token[idx]?).getD .endArray).as_begin_array_err
  let span := (st.token.drop (idx + 1)).dropLast
  match st.max_len with
  | none => .ok false
  | some max_len =>
      let n := ((span.filterMap Token.as_data).map List.length).sum
      let len := (if span.isEmpty then 3 else 4 + n + (span.length - 1) * 2) + u32mul level st.indent
      .ok (decide (len ≤ max_len))

/-- `PrettyCompactFormatter::can_compact_object`: as for arrays but the
separator estimate is `(span len - 1) * 3`. -/
def PrettyCompactFormatter.can_compact_object (st : PrettyCompactFormatter) (idx : Nat) :
    Except Error Bool := do
  let level ← ((st.token[idx]?).getD .endObject).as_begin_object_err
  let span := (st.token.drop (idx + 1)).dropLast
  match st.max_len with
  | none => .ok false
  | some max_len =>
      let n := ((span.filterMap Token.as_data).map List.length).sum
      let len := (if span.isEmpty then 3 else 4 + n + (span.length - 1) * 3) + u32mul level st.indent
      .ok (decide (len ≤ max_len))

/-- The child loop of `PrettyCompactFormatter::format_array`: every span entry
must be `Data` (`as_data_err`), separators and indentation as in the compact
or expanded layout. -/
def renderArraySpan (span : List Token) (compact : Bool) (spaces_next : Nat) (first : Bool) :
    Except Error Bytes :=
  match span with
  | [] => .ok []
  | t :: rest => do
      let value ← t.as_data_err
      let sep := if first then ([] : Bytes) else if compact then strB ", " else strB ",\n"
      let ind := if compact then ([] : Bytes) else indB spaces_next
      let restB ← renderArraySpan rest compact spaces_next false
      .ok (sep ++ ind ++ value ++ restB)

/-- The pair loop of `PrettyCompactFormatter::format_object`
(`chunks_exact(2)` over `token[idx+1..]`): key and value must both be `Data`;
a single leftover token is dropped from the iteration. -/
def renderObjectSpan (span : List Token) (compact : Bool) (spaces_next : Nat) (first : Bool) :
    Except Error Bytes :=
  match span with
  | t1 :: t2 :: rest => do
      let key ← t1.as_data_err
      let value ← t2.as_data_err
      let sep := if first then ([] : Bytes) else if compact then strB ", " else strB ",\n"
      let ind := if compact then ([] : Bytes) else indB spaces_next
      let restB ← renderObjectSpan rest compact spaces_next false
      .ok (sep ++ ind ++ key ++ strB ": " ++ value ++ restB)
  | _ => .ok []

/-- `PrettyCompactFormatter::format_array`: find the topmost `BeginArray`
(else `NoArrayStart`), decide compactness, render the span
`token[idx+1 .. len-1]` into an internal cursor, then replace `token[idx..]`
by one `Data` token holding the rendered bytes.  Nothing is written to the
external writer. -/
def PrettyCompactFormatter.format_array (st : PrettyCompactFormatter) :
    Except Error PrettyCompactFormatter := do
  let (idx, level) ←
    match find_last_token Token.as_begin_array st.token with
    | some r => Except.ok r
    | none => Except.error Error.noArrayStart
  let compact ← st.can_compact_array idx
  let span := (st.token.drop (idx + 1)).dropLast
  let spaces := u32mul level st.indent
  let spaces_next := u32mul (u32inc level) st.indent
  let body ← renderArraySpan span compact spaces_next true
  let tail :=
    if compact && span.isEmpty then strB "]"
    else if compact then strB " ]"
    else strB "\n" ++ indB spaces ++ strB "]"
  let rendered := (if compact then strB "[ " else strB "[\n") ++ body ++ tail
  .ok { st with token := st.token.take idx ++ [Token.data rendered] }

/-- `PrettyCompactFormatter::format_object`: find the topmost `BeginObject`
(else `NoObjectStart`); note the iterated span is `token[idx+1..]`, which
still contains the trailing `EndObject` marker — an odd pair span therefore
pairs its dangling child with `EndObject` and fails in `as_data_err`. -/
def PrettyCompactFormatter.format_object (st : PrettyCompactFormatter) :
    Except Error PrettyCompactFormatter := do
  let (idx, level) ←
    match find_last_token Token.as_begin_object st.token with
    | some r => Except.ok r
    | none => Except.error Error.noObjectStart
  let compact ← st.can_compact_object idx
  let span := st.token.drop (idx + 1)
  let spaces := u32mul level st.indent
  let spaces_next := u32mul (u32inc level) st.indent
  let body ← renderObjectSpan span compact spaces_next true
  let tail :=
    if compact && decide (span.length < 2) then strB "\x7d"
    else if compact then strB " \x7d"
    else strB "\n" ++ indB spaces ++ strB "\x7d"
  let rendered := (if compact then strB "\x7b " else strB "\x7b\n") ++ body ++ tail
  .ok { st with token := st.token.take idx ++ [Token.data rendered] }

/-- The reduction dispatch at the top of `PrettyCompactFormatter::format_json`:
reduce an array/object span when the stack top is the matching end marker. -/
def PrettyCompactFormatter.reduceStep (st : PrettyCompactFormatter) :
    Except Error PrettyCompactFormatter :=
  if (st.token.getLast?).any Token.is_end_array then st.format_array
  else if (st.token.getLast?).any Token.is_end_object then st.format_object
  else .ok st

/-- The output step of `PrettyCompactFormatter::format_json`: when the stack
holds exactly one token and it is `Data`, its bytes go to the external writer
in one `write_all` call and the stack is popped; otherwise nothing is
written.  The external writes of an operation are modelled as a list of
chunks, one entry per `write_all` on the writer. -/
def PrettyCompactFormatter.emit (st : PrettyCompactFormatter) :
    PrettyCompactFormatter × List Bytes :=
  match st.token with
  | [t] =>
      match t.as_data with
      | some buf => ({ st with token := [] }, [buf])
      | none => (st, [])
  | _ => (st, [])

/-- `PrettyCompactFormatter::format_json`: reduce, then possibly write the
completed top-level value. -/
def PrettyCompactFormatter.format_json (st : PrettyCompactFormatter) :
    Except Error (PrettyCompactFormatter × List Bytes) :=
  (st.reduceStep).map PrettyCompactFormatter.emit

/-- `Formatter::begin_array` for `PrettyCompactFormatter`: push
`BeginArray(level)`, increment the level; the writer is untouched. -/
def PrettyCompactFormatter.begin_array (st : PrettyCompactFormatter) :
    PrettyCompactFormatter × List Bytes :=
  ({ st with token := st.token ++ [.beginArray st.level], level := u32inc st.level }, [])

/-- The state mutation of `Formatter::end_array` before `format_json` runs:
push `EndArray` and decrement the `u32` level with no guard. -/
def PrettyCompactFormatter.end_array_push (st : PrettyCompactFormatter) :
    PrettyCompactFormatter :=
  { st with token := st.token ++ [.endArray], level := u32dec st.level }

/-- `Formatter::end_array`: push/decrement, then `format_json`. -/
def PrettyCompactFormatter.end_array (st : PrettyCompactFormatter) :
    Except Error (PrettyCompactFormatter × List Bytes) :=
  st.end_array_push.format_json

/-- `Formatter::begin_object`. -/
def PrettyCompactFormatter.begin_object (st : PrettyCompactFormatter) :
    PrettyCompactFormatter × List Bytes :=
  ({ st with token := st.token ++ [.beginObject st.level], level := u32inc st.level }, [])

/-- The state mutation of `Formatter::end_object` before `format_json` runs. -/
def PrettyCompactFormatter.end_object_push (st : PrettyCompactFormatter) :
    PrettyCompactFormatter :=
  { st with token := st.token ++ [.endObject], level := u32dec st.level }

/-- `Formatter::end_object`: push/decrement, then `format_json`. -/
def PrettyCompactFormatter.end_object (st : PrettyCompactFormatter) :
    Except Error (PrettyCompactFormatter × List Bytes) :=
  st.end_object_push.format_json

/-- The shared body of the `write_func!` scalar handlers (`write_null`,
`write_bool`, numbers, …): push one pre-rendered `Data` token, then
`format_json`. -/
def PrettyCompactFormatter.write_data (st : PrettyCompactFormatter) (buf : Bytes) :
    Except Error (PrettyCompactFormatter × List Bytes) :=
  PrettyCompactFormatter.format_json { st with token := st.token ++ [.data buf] }

/-- `Formatter::begin_string`: push `Data` holding one `"` byte; no write, no
reduction. -/
def PrettyCompactFormatter.begin_string (st : PrettyCompactFormatter) :
    PrettyCompactFormatter × List Bytes :=
  ({ st with token := st.token ++ [.data (strB "\"")] }, [])

/-- `Formatter::write_string_fragment`: extend the topmost token, which must
exist (`EmptyTokenQueue`) and be `Data` (`UnexpectedEvent`); the writer is
untouched. -/
def PrettyCompactFormatter.write_string_fragment (st : PrettyCompactFormatter)
    (fragment : Bytes) : Except Error (PrettyCompactFormatter × List Bytes) :=
  match st.token.getLast? with
  | none => .error .emptyTokenQueue
  | some t =>
      match t.as_data with
      | some d => .ok ({ st with token := st.token.dropLast ++ [.data (d ++ fragment)] }, [])
      | none => .error (.unexpectedEvent "Data" t.debug_info)

/-- `Formatter::end_string`: append the closing `"` byte to the topmost token
(same checks as `write_string_fragment`), then `format_json`. -/
def PrettyCompactFormatter.end_string (st : PrettyCompactFormatter) :
    Except Error (PrettyCompactFormatter × List Bytes) :=
  match st.token.getLast? with
  | none => .error .emptyTokenQueue
  | some t =>
      match t.as_data with
      | some d =>
          PrettyCompactFormatter.format_json
            { st with token := st.token.dropLast ++ [.data (d ++ strB "\"")] }
      | none => .error (.unexpectedEvent "Data" t.debug_info)

mutual

/-- Modelled from the spec (§4.3 rendering, §8 "Expansion fallback"), as
amended for the source's 32-bit arithmetic: the plain multi-line pretty
printer that the engine degenerates to when the budget is disabled — every
compound opens its bracket, puts one child (one `key: value` pair) per line
indented by the wrapping `u32` product `(level+1) * indent` with `","` line
separators, and closes the bracket on its own line at the wrapping product
`level * indent`.  Used only as the comparison point for the refinement
claim about `no_rules` mode; `Token.format` is the code's renderer. -/
def specExpanded (t : Token) (indent : Nat) : Except Error Bytes :=
  match t with
  | .beginObject _ => .ok []
  | .endObject => .ok []
  | .beginArray _ => .ok []
  | .endArray => .ok []
  | .data v => .ok v
  | .array level ts => do
      let body ← specExpandedItems ts indent (u32mul (u32inc level) indent) true
      .ok (strB "[\n" ++ body ++ strB "\n" ++ indB (u32mul level indent) ++ strB "]")
  | .object level ts => do
      let body ← specExpandedPairs ts indent (u32mul (u32inc level) indent) true
      .ok (strB "\x7b\n" ++ body ++ strB "\n" ++ indB (u32mul level indent) ++ strB "\x7d")

/-- One array child per line for `specExpanded`. -/
def specExpandedItems (ts : List Token) (indent spaces_next : Nat) (first : Bool) :
    Except Error Bytes :=
  match ts with
  | [] => .ok []
  | t :: rest => do
      let v ← specExpanded t indent
      let restB ← specExpandedItems rest indent spaces_next false
      .ok ((if first then ([] : Bytes) else strB ",\n") ++ indB spaces_next ++ v ++ restB)

/-- One `key: value` pair per line for `specExpanded`. -/
def specExpandedPairs (ts : List Token) (indent spaces_next : Nat) (first : Bool) :
    Except Error Bytes :=
  match ts with
  | t1 :: t2 :: rest => do
      let key ← t1.as_data_err
      let v ← specExpanded t2 indent
      let restB ← specExpandedPairs rest indent spaces_next false
      .ok ((if first then ([] : Bytes) else strB ",\n") ++ indB spaces_next ++ key
        ++ strB ": " ++ v ++ restB)
  | _ => .ok []

end

/-- Induction over the token tree with the inductive hypothesis available for
every member of a compound's child list. -/
theorem Token.inductionOn {P : Token → Prop}
    (h1 : ∀ l, P (.beginObject l)) (h2 : P .endObject)
    (h3 : ∀ l, P (.beginArray l)) (h4 : P .endArray)
    (h5 : ∀ v, P (.data v))
    (h6 : ∀ l ts, (∀ t ∈ ts, P t) → P (.array l ts))
    (h7 : ∀ l ts, (∀ t ∈ ts, P t) → P (.object l ts)) : ∀ t, P t
  | .beginObject l => h1 l
  | .endObject => h2
  | .beginArray l => h3 l
  | .endArray => h4
  | .data v => h5 v
  | .array l ts => h6 l ts (fun t ht => Token.inductionOn h1 h2 h3 h4 h5 h6 h7 t)
  | .object l ts => h7 l ts (fun t ht => Token.inductionOn h1 h2 h3 h4 h5 h6 h7 t)
  termination_by t => sizeOf t
  decreasing_by
  · have := List.sizeOf_lt_of_mem ht
    simp only [Token.array.sizeOf_spec]
    omega
  · have := List.sizeOf_lt_of_mem ht
    simp only [Token.object.sizeOf_spec]
    omega

/-- `find_last_token` finds nothing iff no stack entry matches. -/
theorem find_last_token_eq_none {p : Token → Option Nat} {l : List Token}
    (h : ∀ t ∈ l, p t = none) : find_last_token p l = none := by
  induction l with
  | nil => rfl
  | cons a l ih =>
      have ha : p a = none := h a (List.mem_cons_self a l)
      have hl : find_last_token p l = none := ih fun t ht => h t (List.mem_cons_of_mem a ht)
      simp [find_last_token, hl, ha]

/-- A successful `find_last_token` points at a matching token. -/
theorem find_last_token_spec {p : Token → Option Nat} {l : List Token} {idx n : Nat}
    (h : find_last_token p l = some (idx, n)) :
    ∃ t, l[idx]? = some t ∧ p t = some n := by
  induction l generalizing idx with
  | nil => simp [find_last_token] at h
  | cons a l ih =>
      rw [find_last_token] at h
      cases hl : find_last_token p l with
      | some r =>
          obtain ⟨i, m⟩ := r
          rw [hl] at h
          simp only [Option.some.injEq, Prod.mk.injEq] at h
          obtain ⟨hi, hm⟩ := h
          obtain ⟨t, hget, hp⟩ := ih (by rw [hl, hm])
          exact ⟨t, by simpa [← hi] using hget, hp⟩
      | none =>
          rw [hl] at h
          cases hp : p a with
          | none => simp [hp] at h
          | some m =>
              simp only [hp, Option.map_some'] at h
              obtain ⟨hi, hm⟩ := Prod.mk.injEq .. ▸ Option.some.injEq .. ▸ h
              exact ⟨a, by simp [← hi], by rw [hp, hm]⟩

/-- `find_last_token` returns the position of the last matching entry. -/
theorem find_last_token_last {p : Token → Option Nat} {l₁ l₂ : List Token} {x : Token} {n : Nat}
    (hx : p x = some n) (h₂ : ∀ t ∈ l₂, p t = none) :
    find_last_token p (l₁ ++ x :: l₂) = some (l₁.length, n) := by
  induction l₁ with
  | nil =>
      simp only [List.nil_append, find_last_token, find_last_token_eq_none h₂, hx,
        Option.map_some', List.length_nil]
  | cons a l₁ ih =>
      simp only [List.cons_append, find_last_token, List.append_eq, ih, List.length_cons]


/-- `as_data_err` on a `Data` token. -/
theorem Token.as_data_err_ok {t : Token} {d : Bytes} (h : t.as_data = some d) :
    t.as_data_err = .ok d := by
  unfold Token.as_data_err; rw [h]

/-- `as_data_err` on a non-`Data` token. -/
theorem Token.as_data_err_none {t : Token} (h : t.as_data = none) :
    t.as_data_err = .error (.unexpectedEvent "Data" t.debug_info) := by
  unfold Token.as_data_err; rw [h]

/-- If any token of an array span is not `Data`, the span rendering of
`format_array` fails. -/
theorem renderArraySpan_err : ∀ {span : List Token}, (∃ t ∈ span, t.as_data = none) →
    ∀ compact spn first, ∃ e, renderArraySpan span compact spn first = .error e := by
  intro span h
  induction span with
  | nil => simp at h
  | cons a rest ih =>
      intro compact spn first
      obtain ⟨t, ht, hnone⟩ := h
      cases ha : a.as_data with
      | none =>
          refine ⟨.unexpectedEvent "Data" a.debug_info, ?_⟩
          simp only [renderArraySpan, Token.as_data_err_none ha]
          rfl
      | some d =>
          have ht' : t ∈ rest := by
            rcases List.mem_cons.mp ht with rfl | hmem
            · rw [ha] at hnone; cases hnone
            · exact hmem
          obtain ⟨e, he⟩ := ih ⟨t, ht', hnone⟩ compact spn false
          refine ⟨e, ?_⟩
          simp only [renderArraySpan, Token.as_data_err_ok ha, he]
          rfl

/-- An object span of odd pair length ending in the pushed `EndObject` marker
fails: the dangling child is paired with `EndObject`, whose `as_data_err`
reports the unexpected event. -/
theorem renderObjectSpan_odd : ∀ (mid : List Token), (∀ t ∈ mid, (t.as_data).isSome) →
    mid.length % 2 = 1 → ∀ compact spn first,
    renderObjectSpan (mid ++ [.endObject]) compact spn first =
      .error (.unexpectedEvent "Data" "EndObject")
  | [], _, hodd => by simp at hodd
  | [m], h, _ => by
      intro compact spn first
      obtain ⟨d, hd⟩ := Option.isSome_iff_exists.mp (h m (by simp))
      simp only [List.cons_append, List.nil_append, renderObjectSpan, Token.as_data_err_ok hd]
      rfl
  | a :: b :: rest, h, hodd => by
      intro compact spn first
      obtain ⟨da, hda⟩ := Option.isSome_iff_exists.mp (h a (by simp))
      obtain ⟨db, hdb⟩ := Option.isSome_iff_exists.mp (h b (by simp))
      have hodd' : rest.length % 2 = 1 := by
        simp only [List.length_cons] at hodd
        omega
      have ih := renderObjectSpan_odd rest (fun t ht => h t (by simp [ht])) hodd'
        compact spn false
      simp only [List.cons_append, renderObjectSpan, Token.as_data_err_ok hda,
        Token.as_data_err_ok hdb, List.append_eq, ih]
      rfl

/-- `can_compact_array` succeeds whenever the indexed token is `BeginArray`. -/
theorem can_compact_array_ok {st : PrettyCompactFormatter} {idx l : Nat}
    (h : st.token[idx]? = some (.beginArray l)) :
    ∃ b, st.can_compact_array idx = .ok b := by
  unfold PrettyCompactFormatter.can_compact_array
  rw [h]
  cases hm : st.max_len with
  | none => exact ⟨false, rfl⟩
  | some m => exact ⟨_, rfl⟩

/-- `can_compact_object` succeeds whenever the indexed token is `BeginObject`. -/
theorem can_compact_object_ok {st : PrettyCompactFormatter} {idx l : Nat}
    (h : st.token[idx]? = some (.beginObject l)) :
    ∃ b, st.can_compact_object idx = .ok b := by
  unfold PrettyCompactFormatter.can_compact_object
  rw [h]
  cases hm : st.max_len with
  | none => exact ⟨false, rfl⟩
  | some m => exact ⟨_, rfl⟩

/-- Whatever `format_json` writes to the external writer is either nothing or
exactly one chunk, the latter only when the stack has been reduced to that
single `Data` token, which is then popped. -/
theorem format_json_out {st st' : PrettyCompactFormatter} {out : List Bytes}
    (h : st.format_json = .ok (st', out)) :
    out = [] ∨ ∃ b, out = [b] ∧ st'.token = [] := by
  unfold PrettyCompactFormatter.format_json at h
  cases hr : st.reduceStep with
  | error e => rw [hr] at h; simp [Except.map] at h
  | ok st1 =>
      rw [hr] at h
      have hemit : PrettyCompactFormatter.emit st1 = (st', out) := by
        simpa [Except.map] using h
      have key : (PrettyCompactFormatter.emit st1).2 = [] ∨
          ∃ b, (PrettyCompactFormatter.emit st1).2 = [b] ∧
            (PrettyCompactFormatter.emit st1).1.token = [] := by
        obtain ⟨i, m, tok, lvl⟩ := st1
        match tok with
        | [] => exact Or.inl rfl
        | [t] =>
            cases t
            case data d => exact Or.inr ⟨d, rfl, rfl⟩
            all_goals exact Or.inl rfl
        | t₁ :: t₂ :: rest => exact Or.inl rfl
      rw [hemit] at key
      simpa using key

/-- With the budget disabled, the array child loop of `Token::format` agrees
with the spec's plain expanded rendering, given that every child does. -/
theorem formatArrayItems_noRules (ind : Nat) :
    ∀ (ts : List Token),
    (∀ t ∈ ts, ∀ i : Nat, Token.format t ⟨i, none⟩ none = specExpanded t i) →
    ∀ spn first, Token.formatArrayItems ts ⟨ind, none⟩ false spn first =
      specExpandedItems ts ind spn first := by
  intro ts h
  induction ts with
  | nil => intro spn first; rfl
  | cons a rest ihl =>
      intro spn first
      have ha := h a (List.mem_cons_self a rest)
      have hrest := ihl (fun t ht i => h t (List.mem_cons_of_mem a ht) i) spn false
      simp only [Token.formatArrayItems, specExpandedItems, ha ind, hrest]
      rfl

/-- With the budget disabled, the object pair loop of `Token::format` agrees
with the spec's plain expanded rendering for every threaded column value:
the key-fit probe returns `true` exactly for leaves (rendered identically by
both branches) and `false` for compounds (forced expansion), so the column
argument never influences the output. -/
theorem formatObjectPairs_noRules (ind : Nat) :
    ∀ (ts : List Token),
    (∀ t ∈ ts, ∀ i : Nat, Token.format t ⟨i, none⟩ none = specExpanded t i ∧
      Token.format t ⟨i, none⟩ (some false) = specExpanded t i) →
    ∀ spn ci first, Token.formatObjectPairs ts ⟨ind, none⟩ false spn ci first =
      specExpandedPairs ts ind spn first
  | [], _ => by intro spn ci first; rfl
  | [t], _ => by intro spn ci first; rfl
  | t1 :: t2 :: rest, h => by
      intro spn ci first
      have h2 := h t2 (by simp)
      have hrest := formatObjectPairs_noRules ind rest
        (fun t ht i => h t (by simp [ht]) i)
      simp only [Token.formatObjectPairs, specExpandedPairs, hrest]
      congr 1
      funext key
      simp only [Bool.false_eq_true, if_false]
      split <;> split
      all_goals first
        | rw [(h2 ind).1]
        | rw [(h2 ind).2]

/-- With `max_len` unset, `Token::format` coincides with the spec's plain
expanded pretty printer, both under the default decision (`forced_compact =
None`) and under forced expansion (`Some(false)`): every compound node takes
the expanded branch. -/
theorem noRulesFormatEq : ∀ (t : Token) (ind : Nat),
    Token.format t ⟨ind, none⟩ none = specExpanded t ind ∧
    Token.format t ⟨ind, none⟩ (some false) = specExpanded t ind := by
  intro t
  induction t using Token.inductionOn with
  | h1 l => exact fun ind => ⟨rfl, rfl⟩
  | h2 => exact fun ind => ⟨rfl, rfl⟩
  | h3 l => exact fun ind => ⟨rfl, rfl⟩
  | h4 => exact fun ind => ⟨rfl, rfl⟩
  | h5 v => exact fun ind => ⟨rfl, rfl⟩
  | h6 l ts ih =>
      intro ind
      have hitems := formatArrayItems_noRules ind ts (fun t ht i => (ih t ht i).1)
        (u32mul (u32inc l) ind) true
      constructor
      · simp only [Token.format, Token.can_compact, Option.getD, specExpanded, hitems,
          Bool.false_and, Bool.false_eq_true, if_false, List.append_assoc]
      · simp only [Token.format, Option.getD, specExpanded, hitems,
          Bool.false_and, Bool.false_eq_true, if_false, List.append_assoc]
  | h7 l ts ih =>
      intro ind
      have hpairs := formatObjectPairs_noRules ind ts ih (u32mul (u32inc l) ind)
      constructor
      · simp only [Token.format, Token.can_compact, Option.getD, specExpanded, hpairs,
          Bool.false_and, Bool.false_eq_true, if_false, List.append_assoc]
      · simp only [Token.format, Option.getD, specExpanded, hpairs,
          Bool.false_and, Bool.false_eq_true, if_false, List.append_assoc]

deriving instance DecidableEq for Except

/-- C3, counterexample.  The claim "an Array with N >= 1 children has width
4 + sum of child widths + 2*(N-1) for every tree" fails for an array holding
a single zero-width `Data` leaf: the claimed formula gives 4, while
`Token::length` computes inner width 0 and returns 3. -/
theorem claimC3_counterexample :
    Token.length (.array 0 [.data []]) = 3 ∧
    4 + Token.lengthList [.data ([] : Bytes)] +
      2 * (([.data ([] : Bytes)] : List Token).length - 1) = 4 :=
  ⟨rfl, rfl⟩

/-- C3, amended.  The spec's width formulas hold except when the computed
inner width is 0: an empty compound has width 3; a non-empty `Array` whose
inner width `sum + 2*(N-1)` is positive has width `4 + sum + 2*(N-1)`; a
non-empty `Object` whose inner width `sum + 2*(N/2) + 2*(N/2 - 1)` is
positive has width `4 + sum + 2*(N/2) + 2*(N/2 - 1)` (subtraction
saturating); a compound with exactly one zero-width child also yields 3. -/
theorem claimC3_amended : ∀ (level : Nat) (ts : List Token),
    (Token.length (.array level []) = 3 ∧ Token.length (.object level []) = 3) ∧
    (0 < Token.lengthList ts + (ts.length - 1) * 2 →
      Token.length (.array level ts) = 4 + Token.lengthList ts + (ts.length - 1) * 2) ∧
    (0 < Token.lengthList ts + 2 * (ts.length / 2) + (ts.length / 2 - 1) * 2 →
      Token.length (.object level ts) =
        4 + Token.lengthList ts + 2 * (ts.length / 2) + (ts.length / 2 - 1) * 2) := by
  intro level ts
  refine ⟨⟨rfl, rfl⟩, ?_, ?_⟩
  · intro h
    unfold Token.length
    simp only [if_pos h]
    omega
  · intro h
    unfold Token.length
    simp only [if_pos h]
    omega

/-- C3, witness for the amended theorem: `[ 1, 23 ]` has inner width
`3 + 2 > 0` and total width `4 + 3 + 2 = 9`. -/
theorem claimC3_witness :
    Token.length (.array 0 [.data (strB "1"), .data (strB "23")]) =
      4 + Token.lengthList [.data (strB "1"), .data (strB "23")] +
        (([.data (strB "1"), .data (strB "23")] : List Token).length - 1) * 2 :=
  (claimC3_amended 0 [.data (strB "1"), .data (strB "23")]).2.1 (by decide)

/-- C4, counterexample.  The claim "empty compounds are never rendered in
expanded form, for every max_len setting" is false: with `max_len` unset,
`can_compact` is false for any compound, so an empty array renders as the
expanded `"[\n\n]"` (and an empty object as `"{\n\n}"`), not `"[ ]"`. -/
theorem claimC4_counterexample :
    Token.format (.array 0 []) noRulesOptions none = .ok (strB "[\n\n]") ∧
    Token.format (.object 0 []) noRulesOptions none = .ok (strB "\x7b\n\n\x7d") ∧
    strB "[\n\n]" ≠ strB "[ ]" :=
  ⟨rfl, rfl, by decide⟩

/-- C4, amended.  An empty array renders as exactly `[ ]` (and an empty
object as `{ }`) whenever the compact branch is taken: when `max_len` is set
and the wrapping 32-bit product `level*indent` satisfies
`level*indent + 3 < max_len`, or when compaction is forced.  With the budget
unset, or with the budget exceeded (`max_len <= level*indent + 3`), the
empty compound renders in the expanded form: bracket, newline, newline,
`level*indent` (wrapped) spaces, closing bracket. -/
theorem claimC4_amended :
    (∀ (ind ml level : Nat), u32mul level ind + 3 < ml →
      Token.format (.array level []) ⟨ind, some ml⟩ none = .ok (strB "[ ]") ∧
      Token.format (.object level []) ⟨ind, some ml⟩ none = .ok (strB "\x7b \x7d")) ∧
    (∀ (options : Options) (level : Nat),
      Token.format (.array level []) options (some true) = .ok (strB "[ ]") ∧
      Token.format (.object level []) options (some true) = .ok (strB "\x7b \x7d")) ∧
    (∀ (ind level : Nat),
      Token.format (.array level []) ⟨ind, none⟩ none =
        .ok (strB "[\n" ++ strB "\n" ++ indB (u32mul level ind) ++ strB "]") ∧
      Token.format (.object level []) ⟨ind, none⟩ none =
        .ok (strB "\x7b\n" ++ strB "\n" ++ indB (u32mul level ind) ++ strB "\x7d")) ∧
    (∀ (ind ml level : Nat), ml ≤ u32mul level ind + 3 →
      Token.format (.array level []) ⟨ind, some ml⟩ none =
        .ok (strB "[\n" ++ strB "\n" ++ indB (u32mul level ind) ++ strB "]") ∧
      Token.format (.object level []) ⟨ind, some ml⟩ none =
        .ok (strB "\x7b\n" ++ strB "\n" ++ indB (u32mul level ind) ++ strB "\x7d")) := by
  refine ⟨?_, ?_, ?_, ?_⟩
  · intro ind ml level h
    have hca : Token.can_compact (.array level []) ⟨ind, some ml⟩ none = true := by
      unfold Token.can_compact Token.length
      simpa using h
    have hco : Token.can_compact (.object level []) ⟨ind, some ml⟩ none = true := by
      unfold Token.can_compact Token.length
      simpa using h
    constructor
    · simp only [Token.format, Option.getD, hca]
      rfl
    · simp only [Token.format, Option.getD, hco]
      rfl
  · intro options level
    constructor
    · simp only [Token.format, Option.getD]
      rfl
    · simp only [Token.format, Option.getD]
      rfl
  · intro ind level
    constructor
    · simp only [Token.format, Token.can_compact, Option.getD]
      rfl
    · simp only [Token.format, Token.can_compact, Option.getD]
      rfl
  · intro ind ml level h
    have hca : Token.can_compact (.array level []) ⟨ind, some ml⟩ none = false := by
      unfold Token.can_compact Token.length Token.lengthList
      simp
      omega
    have hco : Token.can_compact (.object level []) ⟨ind, some ml⟩ none = false := by
      unfold Token.can_compact Token.length Token.lengthList
      simp
      omega
    constructor
    · simp only [Token.format, Option.getD, hca]
      rfl
    · simp only [Token.format, Option.getD, hco]
      rfl

/-- C4, witness: an empty array nested at level 5 under the default options
still renders as `[ ]`, and one at level 2 with `indent = 2^31` (whose
wrapped prefix is 0, far over a budget of 3) renders expanded. -/
theorem claimC4_witness :
    Token.format (.array 5 []) ⟨2, some 120⟩ none = .ok (strB "[ ]") ∧
    Token.format (.array 2 []) ⟨2147483648, some 3⟩ none =
      .ok (strB "[\n" ++ strB "\n" ++ indB (u32mul 2 2147483648) ++ strB "]") :=
  ⟨(claimC4_amended.1 2 120 5 (by decide)).1,
   (claimC4_amended.2.2.2 2147483648 3 2 (by decide)).1⟩

/-- C10: `end_array` and `end_object` decrement the unsigned 32-bit level
counter with no guard.  Under the precondition that a compound is open
(`0 < level`, with `level` a valid `u32`), the decrement is the ordinary
`level - 1`; at `level = 0` the decrement underflows and wraps to
`2^32 - 1`, and this happens in the state mutation that precedes
`format_json`, i.e. before any structural error can be reported. -/
theorem claimC10 : ∀ st : PrettyCompactFormatter,
    (st.level = 0 → (st.end_array_push).level = 4294967295 ∧
      (st.end_object_push).level = 4294967295) ∧
    (0 < st.level → st.level < 4294967296 →
      (st.end_array_push).level = st.level - 1 ∧
      (st.end_object_push).level = st.level - 1) := by
  intro st
  unfold PrettyCompactFormatter.end_array_push PrettyCompactFormatter.end_object_push
    u32dec U32MOD
  constructor
  · intro h
    rw [h]
    exact ⟨rfl, rfl⟩
  · intro h1 h2
    constructor <;> · simp only; omega

/-- C10, witness: decrementing from level 0 wraps to `2^32 - 1`; from level 5
it yields 4. -/
theorem claimC10_witness :
    (PrettyCompactFormatter.end_array_push ⟨2, some 120, [], 0⟩).level = 4294967295 ∧
    (PrettyCompactFormatter.end_array_push ⟨2, some 120, [], 5⟩).level = 5 - 1 :=
  ⟨((claimC10 ⟨2, some 120, [], 0⟩).1 rfl).1,
   ((claimC10 ⟨2, some 120, [], 5⟩).2 (by decide) (by decide)).1⟩

/-- A conditional with the same continuation duplicated into both branches is
the conditional of the sources bound to that continuation (the shape produced
by the `if` inside `Token::format`'s object loop). -/
theorem ite_bind (c : Bool) (A B : Except Error Bytes) (K : Bytes → Except Error Bytes) :
    (if c then Bind.bind A K else Bind.bind B K) = Bind.bind (if c then A else B) K := by
  cases c <;> rfl

/-- C1, counterexample.  The claim "if canCompact(value, indentOverride =
consumed column) returns true, the value is rendered with forcedCompact =
true" is false.  With `indent = 20`, `max_len = 30`, the object
`{"a": [ 1234567890 ]}` is rendered compact; the consumed column for the
value is `2 + 3 + 2 = 7` and the key-fit probe succeeds (conjunct 1), so per
the claim the value must be rendered forced-compact, i.e. as
`[ 1234567890 ]` (conjunct 2).  But the code renders the value with
`forced_compact = None`, under which the value re-evaluates `can_compact` at
its own nesting prefix `1 * 20 = 20` (with `20 + 14 < 30` false) and
expands (conjunct 3): the output is not the claimed one. -/
theorem claimC1_counterexample :
    Token.can_compact (.array 1 [.data (strB "1234567890")]) ⟨20, some 30⟩ (some 7) = true ∧
    Token.format (.array 1 [.data (strB "1234567890")]) ⟨20, some 30⟩ (some true) =
      .ok (strB "[ 1234567890 ]") ∧
    Token.format (.object 0 [.data (strB "\"a\""), .array 1 [.data (strB "1234567890")]])
        ⟨20, some 30⟩ none =
      .ok (strB "\x7b \"a\": [\n" ++ indB 40 ++ strB "1234567890\n" ++ indB 20
        ++ strB "] \x7d") :=
  ⟨rfl, rfl, rfl⟩

/-- C1, amended.  For every key/value pair of every Object token rendered,
the value is placed by `keyFitValueRender`: if `canCompact(value,
indentOverride = consumed column)` returns true, the value is rendered with
`forcedCompact = None` — its own default decision at its nominal indent —
and if it returns false, with `forcedCompact = false` (full expansion).  The
three conjuncts cover a pair in head position of the loop for (first pair;
later pair of a compact object; later pair of an expanded object), with the
consumed column as the code computes it in each case. -/
theorem claimC1_amended : ∀ (options : Options) (k : Bytes) (t2 : Token)
    (rest : List Token) (compact : Bool) (spn ci : Nat),
    (Token.formatObjectPairs (.data k :: t2 :: rest) options compact spn ci true =
      (do
        let v ← keyFitValueRender t2 options ((if compact then ci else ci + spn) + k.length + 2)
        let restB ← Token.formatObjectPairs rest options compact spn
          ((if compact then ci else ci + spn) + k.length + 2) false
        Except.ok ((if compact then ([] : Bytes) else indB spn) ++ k ++ strB ": "
          ++ v ++ restB))) ∧
    (Token.formatObjectPairs (.data k :: t2 :: rest) options true spn ci false =
      (do
        let v ← keyFitValueRender t2 options (ci + 2 + k.length + 2)
        let restB ← Token.formatObjectPairs rest options true spn (ci + 2 + k.length + 2) false
        Except.ok (strB ", " ++ k ++ strB ": " ++ v ++ restB))) ∧
    (Token.formatObjectPairs (.data k :: t2 :: rest) options false spn ci false =
      (do
        let v ← keyFitValueRender t2 options (0 + spn + k.length + 2)
        let restB ← Token.formatObjectPairs rest options false spn (0 + spn + k.length + 2) false
        Except.ok (strB ",\n" ++ indB spn ++ k ++ strB ": " ++ v ++ restB))) := by
  intro options k t2 rest compact spn ci
  refine ⟨?_, ?_, ?_⟩ <;>
  · simp only [Token.formatObjectPairs, keyFitValueRender, ite_bind]
    rfl

set_option maxRecDepth 4000 in
/-- C5, counterexample.  The claim "with `max_len` unset every non-empty
compound renders expanded with each child on its own line indented by
`(level+1)*indent`" fails at the mathematical product: the source computes
the indentation as a wrapping `u32` multiplication.  At `indent = 2^31`,
`level = 1`, the claimed child indentation is `(1+1)*2^31 = 2^32` spaces,
but the `u32` product wraps to 0 and the code writes the child unindented:
byte 2 of the actual output is the child's `1` (49), where the claimed
output has a space (32).  (The closing bracket's `1 * 2^31` does not wrap,
so the two outputs differ exactly in the claimed quantity.) -/
theorem claimC5_counterexample :
    Token.format (.array 1 [.data (strB "1")]) ⟨2147483648, none⟩ none ≠
      .ok (strB "[\n" ++ indB ((1 + 1) * 2147483648) ++ strB "1" ++ strB "\n"
        ++ indB (1 * 2147483648) ++ strB "]") := by
  intro h
  have h2 := congrArg
    (fun x => match x with | Except.ok bytes => bytes.get? 2 | Except.error _ => none) h
  have hL : (match Token.format (.array 1 [.data (strB "1")]) ⟨2147483648, none⟩ none with
      | Except.ok bytes => bytes.get? 2 | Except.error _ => none) = some 49 := rfl
  have hR : (match (Except.ok (strB "[\n" ++ indB ((1 + 1) * 2147483648) ++ strB "1"
        ++ strB "\n" ++ indB (1 * 2147483648) ++ strB "]") : Except Error Bytes) with
      | Except.ok bytes => bytes.get? 2 | Except.error _ => none) = some 32 := rfl
  have h3 : (some 49 : Option Nat) = some 32 := by
    calc (some 49 : Option Nat) = _ := hL.symm
    _ = _ := h2
    _ = some 32 := hR
  exact absurd h3 (by decide)

/-- C5, amended.  When `max_len` is unset (no-rules mode), `Token::format`
coincides — for the default decision `forced_compact = None` and for forced
expansion `Some(false)` — with the spec-side plain pretty printer
`specExpanded`, which renders every non-empty compound in expanded form: one
child (one `key: value` pair) per line, each indented by the wrapping 32-bit
product `(level+1)*indent`, with the `","` separators at line ends and the
closing bracket alone on its line at the wrapping product `level*indent`, so
no node ever shares a line with a sibling. -/
theorem claimC5_amended : ∀ (t : Token) (ind : Nat),
    Token.format t ⟨ind, none⟩ none = specExpanded t ind ∧
    Token.format t ⟨ind, none⟩ (some false) = specExpanded t ind :=
  noRulesFormatEq

/-- C6: an `endArray()` (resp. `endObject()`) event on a working stack that
holds no `BeginArray` (resp. `BeginObject`) marker fails with the
unmatched-end structural error `NoArrayStart` (resp. `NoObjectStart`); the
error return means nothing is written to the external writer, whose only
write site is the success path of `format_json`. -/
theorem claimC6 : ∀ st : PrettyCompactFormatter,
    ((∀ t ∈ st.token, t.as_begin_array = none) → st.end_array = .error .noArrayStart) ∧
    ((∀ t ∈ st.token, t.as_begin_object = none) → st.end_object = .error .noObjectStart) := by
  intro st
  constructor
  · intro h
    have hall : ∀ t ∈ st.token ++ [Token.endArray], t.as_begin_array = none := by
      intro t ht
      rcases List.mem_append.mp ht with hl | hr
      · exact h t hl
      · rw [List.mem_singleton.mp hr]; rfl
    have hfind := find_last_token_eq_none hall
    unfold PrettyCompactFormatter.end_array PrettyCompactFormatter.format_json
      PrettyCompactFormatter.reduceStep PrettyCompactFormatter.end_array_push
      PrettyCompactFormatter.format_array
    simp only [List.getLast?_concat, Option.any_some, Token.is_end_array, if_true, hfind]
    rfl
  · intro h
    have hall : ∀ t ∈ st.token ++ [Token.endObject], t.as_begin_object = none := by
      intro t ht
      rcases List.mem_append.mp ht with hl | hr
      · exact h t hl
      · rw [List.mem_singleton.mp hr]; rfl
    have hfind := find_last_token_eq_none hall
    unfold PrettyCompactFormatter.end_object PrettyCompactFormatter.format_json
      PrettyCompactFormatter.reduceStep PrettyCompactFormatter.end_object_push
      PrettyCompactFormatter.format_object
    simp only [List.getLast?_concat, Option.any_some, Token.is_end_object, Token.is_end_array,
      if_true, hfind]
    rfl

/-- C6, witness: ending an array (object) on the empty stack reports
`NoArrayStart` (`NoObjectStart`). -/
theorem claimC6_witness :
    PrettyCompactFormatter.end_array ⟨2, some 120, [], 0⟩ = .error .noArrayStart ∧
    PrettyCompactFormatter.end_object ⟨2, some 120, [], 0⟩ = .error .noObjectStart :=
  ⟨(claimC6 ⟨2, some 120, [], 0⟩).1 (by simp),
   (claimC6 ⟨2, some 120, [], 0⟩).2 (by simp)⟩

/-- C7, counterexample.  The claim "an end event whose innermost unmatched
begin-marker is of the other compound kind fails with a wrong-kind
structural error" is false: the error type has no wrong-kind variant, and
`endObject()` arriving while only an array is open reports `NoObjectStart` —
the same unmatched-end error used when nothing is open at all (the
backward scan simply finds no `BeginObject`). -/
theorem claimC7_counterexample :
    PrettyCompactFormatter.end_object ⟨2, some 120, [.beginArray 0], 1⟩ =
      .error .noObjectStart := rfl

/-- C7, amended.  The operation still never reduces against a non-innermost
marker: whenever `endArray()` arrives while the topmost unmatched
begin-marker on the stack is a `BeginObject`, the call fails — with
`NoArrayStart` when no `BeginArray` exists below it at all, or with an
`UnexpectedEvent` shape error because the open `BeginObject` lies inside the
span being reduced and is not a `Data` token. -/
theorem claimC7_amended : ∀ (ind : Nat) (ml : Option Nat) (lvl l : Nat)
    (pre post : List Token),
    (∀ t ∈ post, t.as_begin_array = none) →
    ∃ e, PrettyCompactFormatter.end_array
      ⟨ind, ml, pre ++ .beginObject l :: post, lvl⟩ = .error e := by
  intro ind ml lvl l pre post hpost
  unfold PrettyCompactFormatter.end_array PrettyCompactFormatter.format_json
    PrettyCompactFormatter.reduceStep PrettyCompactFormatter.end_array_push
  simp only [List.getLast?_concat, Option.any_some, Token.is_end_array, if_true]
  have hassoc : (pre ++ Token.beginObject l :: post) ++ [Token.endArray] =
      pre ++ Token.beginObject l :: (post ++ [Token.endArray]) := by
    simp
  cases hfind : find_last_token Token.as_begin_array
      ((pre ++ Token.beginObject l :: post) ++ [Token.endArray]) with
  | none =>
      refine ⟨.noArrayStart, ?_⟩
      unfold PrettyCompactFormatter.format_array
      rw [hfind]
      rfl
  | some r =>
      obtain ⟨idx, lvl2⟩ := r
      obtain ⟨t, hget, hp⟩ := find_last_token_spec hfind
      have ht : t = .beginArray lvl2 := by
        cases t with
        | beginArray lv =>
            simp only [Token.as_begin_array, Option.some.injEq] at hp
            rw [hp]
        | beginObject lv => exact absurd hp (by simp [Token.as_begin_array])
        | endObject => exact absurd hp (by simp [Token.as_begin_array])
        | endArray => exact absurd hp (by simp [Token.as_begin_array])
        | data d => exact absurd hp (by simp [Token.as_begin_array])
        | array lv ch => exact absurd hp (by simp [Token.as_begin_array])
        | object lv ch => exact absurd hp (by simp [Token.as_begin_array])
      subst ht
      have hidx : idx < pre.length := by
        by_contra hge
        push_neg at hge
        rw [hassoc] at hget
        rw [List.getElem?_append_right hge] at hget
        have hmem : Token.beginArray lvl2 ∈ Token.beginObject l :: (post ++ [Token.endArray]) :=
          List.getElem?_mem hget
        rcases List.mem_cons.mp hmem with heq | hmem2
        · cases heq
        · rcases List.mem_append.mp hmem2 with hin | hsing
          · have := hpost _ hin
            simp [Token.as_begin_array] at this
          · rw [List.mem_singleton.mp hsing] at hp
            simp [Token.as_begin_array] at hp
      have hspan : (((pre ++ Token.beginObject l :: post) ++ [Token.endArray]).drop
          (idx + 1)).dropLast = pre.drop (idx + 1) ++ Token.beginObject l :: post := by
        rw [hassoc, List.drop_append_of_le_length (by omega)]
        rw [show List.drop (idx + 1) pre ++ Token.beginObject l :: (post ++ [Token.endArray]) =
          (List.drop (idx + 1) pre ++ Token.beginObject l :: post) ++ [Token.endArray] by simp]
        rw [List.dropLast_concat]
      have hnd : ∃ t ∈ pre.drop (idx + 1) ++ Token.beginObject l :: post,
          t.as_data = none := ⟨.beginObject l, by simp, rfl⟩
      obtain ⟨b, hb⟩ := @can_compact_array_ok
        ⟨ind, ml, (pre ++ Token.beginObject l :: post) ++ [Token.endArray], u32dec lvl⟩
        idx lvl2 (by rw [hget])
      obtain ⟨e, he⟩ := renderArraySpan_err hnd b (u32mul (u32inc lvl2) ind) true
      refine ⟨e, ?_⟩
      unfold PrettyCompactFormatter.format_array
      rw [hfind]
      show (Except.map PrettyCompactFormatter.emit
        (do
          let compact ← PrettyCompactFormatter.can_compact_array
            ⟨ind, ml, (pre ++ Token.beginObject l :: post) ++ [Token.endArray], u32dec lvl⟩ idx
          let body ← renderArraySpan
            ((((pre ++ Token.beginObject l :: post) ++ [Token.endArray]).drop (idx + 1)).dropLast)
            compact (u32mul (u32inc lvl2) ind) true
          Except.ok (⟨ind, ml,
            (((pre ++ Token.beginObject l :: post) ++ [Token.endArray]).take idx) ++
              [Token.data ((if compact then strB "[ " else strB "[\n") ++ body ++
                (if compact && ((((pre ++ Token.beginObject l :: post) ++
                      [Token.endArray]).drop (idx + 1)).dropLast).isEmpty then strB "]"
                  else if compact then strB " ]"
                  else strB "\n" ++ indB (u32mul lvl2 ind) ++ strB "]"))],
            u32dec lvl⟩ : PrettyCompactFormatter))) = Except.error e
      rw [hb]
      show (Except.map PrettyCompactFormatter.emit
        (do
          let body ← renderArraySpan
            ((((pre ++ Token.beginObject l :: post) ++ [Token.endArray]).drop (idx + 1)).dropLast)
            b (u32mul (u32inc lvl2) ind) true
          Except.ok (⟨ind, ml,
            (((pre ++ Token.beginObject l :: post) ++ [Token.endArray]).take idx) ++
              [Token.data ((if b then strB "[ " else strB "[\n") ++ body ++
                (if b && ((((pre ++ Token.beginObject l :: post) ++
                      [Token.endArray]).drop (idx + 1)).dropLast).isEmpty then strB "]"
                  else if b then strB " ]"
                  else strB "\n" ++ indB (u32mul lvl2 ind) ++ strB "]"))],
            u32dec lvl⟩ : PrettyCompactFormatter))) = Except.error e
      rw [hspan, he]
      rfl

/-- C8, counterexample.  The claim that rendering an Object whose child list
has odd length fails with a structural error is false for `Token::format`:
`chunks_exact(2)` silently drops the trailing child, so the three-child
object `["a", 1, "x"]` renders successfully as `{ "a": 1 }`, losing `"x"`
without any error. -/
theorem claimC8_counterexample :
    Token.format (.object 0 [.data (strB "\"a\""), .data (strB "1"), .data (strB "\"x\"")])
      defaultOptions none = .ok (strB "\x7b \"a\": 1 \x7d") := rfl

/-- C8, amended.  The formatter's `endObject()` does fail on an odd span: the
iterated slice `token[idx+1..]` still ends with the pushed `EndObject`
marker, so an odd number of tokens between `BeginObject` and the end marker
makes the final chunk pair the dangling child with `EndObject`, whose
`as_data_err` fails with `UnexpectedEvent("Data", "EndObject")` — no output
is produced and nothing is silently dropped.  `Token::format`, however,
silently drops the trailing child of an odd `Object` (see the
counterexample). -/
theorem claimC8_amended : ∀ (ind : Nat) (ml : Option Nat) (lvl l : Nat)
    (pre mid : List Token),
    (∀ t ∈ mid, (t.as_data).isSome) →
    mid.length % 2 = 1 →
    PrettyCompactFormatter.end_object ⟨ind, ml, pre ++ .beginObject l :: mid, lvl⟩ =
      .error (.unexpectedEvent "Data" "EndObject") := by
  intro ind ml lvl l pre mid hmid hodd
  unfold PrettyCompactFormatter.end_object PrettyCompactFormatter.format_json
    PrettyCompactFormatter.reduceStep PrettyCompactFormatter.end_object_push
  simp only [List.getLast?_concat, Option.any_some, Token.is_end_object, Token.is_end_array,
    Bool.false_eq_true, if_false, if_true]
  have hassoc : (pre ++ Token.beginObject l :: mid) ++ [Token.endObject] =
      pre ++ Token.beginObject l :: (mid ++ [Token.endObject]) := by simp
  rw [hassoc]
  have hnone : ∀ t ∈ mid ++ [Token.endObject], t.as_begin_object = none := by
    intro t ht
    rcases List.mem_append.mp ht with hin | hsing
    · have hs := hmid t hin
      cases t <;> first | rfl | simp [Token.as_data] at hs
    · rw [List.mem_singleton.mp hsing]; rfl
  have hfind := @find_last_token_last Token.as_begin_object pre
    (mid ++ [Token.endObject]) (.beginObject l) l rfl hnone
  have hget : (pre ++ Token.beginObject l :: (mid ++ [Token.endObject]))[pre.length]? =
      some (.beginObject l) := by
    rw [List.getElem?_append_right (le_refl _)]
    simp
  obtain ⟨b, hb⟩ := @can_compact_object_ok
    ⟨ind, ml, pre ++ Token.beginObject l :: (mid ++ [Token.endObject]), u32dec lvl⟩
    pre.length l hget
  have hspan : (pre ++ Token.beginObject l :: (mid ++ [Token.endObject])).drop
      (pre.length + 1) = mid ++ [Token.endObject] := by
    rw [List.drop_append_eq_append_drop]
    simp
  have hrend := renderObjectSpan_odd mid hmid hodd b (u32mul (u32inc l) ind) true
  unfold PrettyCompactFormatter.format_object
  rw [hfind]
  show (Except.map PrettyCompactFormatter.emit
    (do
      let compact ← PrettyCompactFormatter.can_compact_object
        ⟨ind, ml, pre ++ Token.beginObject l :: (mid ++ [Token.endObject]), u32dec lvl⟩
        pre.length
      let body ← renderObjectSpan
        ((pre ++ Token.beginObject l :: (mid ++ [Token.endObject])).drop (pre.length + 1))
        compact (u32mul (u32inc l) ind) true
      Except.ok (⟨ind, ml,
        ((pre ++ Token.beginObject l :: (mid ++ [Token.endObject])).take pre.length) ++
          [Token.data ((if compact then strB "\x7b " else strB "\x7b\n") ++ body ++
            (if compact && decide (((pre ++ Token.beginObject l ::
                  (mid ++ [Token.endObject])).drop (pre.length + 1)).length < 2)
              then strB "\x7d"
              else if compact then strB " \x7d"
              else strB "\n" ++ indB (u32mul l ind) ++ strB "\x7d"))],
        u32dec lvl⟩ : PrettyCompactFormatter))) =
    Except.error (Error.unexpectedEvent "Data" "EndObject")
  rw [hb]
  show (Except.map PrettyCompactFormatter.emit
    (do
      let body ← renderObjectSpan
        ((pre ++ Token.beginObject l :: (mid ++ [Token.endObject])).drop (pre.length + 1))
        b (u32mul (u32inc l) ind) true
      Except.ok (⟨ind, ml,
        ((pre ++ Token.beginObject l :: (mid ++ [Token.endObject])).take pre.length) ++
          [Token.data ((if b then strB "\x7b " else strB "\x7b\n") ++ body ++
            (if b && decide (((pre ++ Token.beginObject l ::
                  (mid ++ [Token.endObject])).drop (pre.length + 1)).length < 2)
              then strB "\x7d"
              else if b then strB " \x7d"
              else strB "\n" ++ indB (u32mul l ind) ++ strB "\x7d"))],
        u32dec lvl⟩ : PrettyCompactFormatter))) =
    Except.error (Error.unexpectedEvent "Data" "EndObject")
  rw [hspan, hrend]
  rfl

/-- C8, witness: ending the object `{"a": 1, "x"` (three span tokens) fails
with the unexpected-event error instead of dropping `"x"`. -/
theorem claimC8_witness :
    PrettyCompactFormatter.end_object ⟨2, some 120,
      [.beginObject 0, .data (strB "\"a\""), .data (strB "1"), .data (strB "\"x\"")], 1⟩ =
      .error (.unexpectedEvent "Data" "EndObject") :=
  claimC8_amended 2 (some 120) 1 0 []
    [.data (strB "\"a\""), .data (strB "1"), .data (strB "\"x\"")]
    (by intro t ht; fin_cases ht <;> rfl) rfl

/-- C7, witness for the amended theorem: `endArray()` while the innermost
open compound is an object (stack `[BeginArray 0, BeginObject 1]`) errors. -/
theorem claimC7_witness :
    ∃ e, PrettyCompactFormatter.end_array
      ⟨2, some 120, [.beginArray 0, .beginObject 1], 2⟩ = .error e :=
  claimC7_amended 2 (some 120) 2 1 [.beginArray 0] [] (by simp)

/-- C9: no bytes reach the external writer while a top-level value is being
assembled.  `begin_array`, `begin_object` and `begin_string` write nothing
unconditionally; `write_string_fragment` writes nothing on success; and the
operations that run `format_json` (scalar pushes via `write_data`,
`end_array`, `end_object`, `end_string`) either write nothing or write
exactly one chunk — the complete rendered top-level value held by the single
remaining `Data` token, which is popped, leaving the stack empty.  All span
rendering in between goes to internal cursors, which this model reflects by
construction of `format_array`/`format_object`. -/
theorem claimC9 : ∀ (st st' : PrettyCompactFormatter) (out : List Bytes) (buf frag : Bytes),
    ((st.begin_array).2 = [] ∧ (st.begin_object).2 = [] ∧ (st.begin_string).2 = []) ∧
    (st.write_string_fragment frag = .ok (st', out) → out = []) ∧
    (st.write_data buf = .ok (st', out) → out = [] ∨ ∃ b, out = [b] ∧ st'.token = []) ∧
    (st.end_array = .ok (st', out) → out = [] ∨ ∃ b, out = [b] ∧ st'.token = []) ∧
    (st.end_object = .ok (st', out) → out = [] ∨ ∃ b, out = [b] ∧ st'.token = []) ∧
    (st.end_string = .ok (st', out) → out = [] ∨ ∃ b, out = [b] ∧ st'.token = []) := by
  intro st st' out buf frag
  refine ⟨⟨rfl, rfl, rfl⟩, ?_, ?_, ?_, ?_, ?_⟩
  · unfold PrettyCompactFormatter.write_string_fragment
    cases hg : st.token.getLast? with
    | none => intro h; cases h
    | some t =>
        intro h
        replace h : (match t.as_data with
            | some d => Except.ok ({ st with
                token := st.token.dropLast ++ [Token.data (d ++ frag)] }, ([] : List Bytes))
            | none => Except.error (Error.unexpectedEvent "Data" t.debug_info)) =
              Except.ok (st', out) := h
        cases hd : t.as_data with
        | none => rw [hd] at h; cases h
        | some d =>
            rw [hd] at h
            exact (congrArg Prod.snd (Except.ok.inj h)).symm
  · intro h
    exact format_json_out h
  · intro h
    exact format_json_out h
  · intro h
    exact format_json_out h
  · unfold PrettyCompactFormatter.end_string
    cases hg : st.token.getLast? with
    | none => intro h; cases h
    | some t =>
        intro h
        replace h : (match t.as_data with
            | some d => PrettyCompactFormatter.format_json { st with
                token := st.token.dropLast ++ [Token.data (d ++ strB "\"")] }
            | none => Except.error (Error.unexpectedEvent "Data" t.debug_info)) =
              Except.ok (st', out) := h
        cases hd : t.as_data with
        | none => rw [hd] at h; cases h
        | some d =>
            rw [hd] at h
            exact format_json_out h

/-- C9, witness: pushing the scalar `true` on the empty stack writes the
complete value in one chunk and leaves the stack empty. -/
theorem claimC9_witness :
    [strB "true"] = [] ∨ ∃ b, [strB "true"] = [b] ∧ (PrettyCompactFormatter.new).token = [] :=
  (claimC9 PrettyCompactFormatter.new PrettyCompactFormatter.new [strB "true"]
    (strB "true") []).2.2.1 rfl
